import Mathlib

/-
Verification of the pysim discrete-event simulator (pysim/sim/simulator.py)
and of the RFID protocol-engine pieces (pysim/models/rfid/handlers.py,
adjust_algs.py, channel.py) against the design specification.

Conventions of the embedding:
* Python floats that carry simulated time, delays and Q estimates are
  modelled as rationals (exact ordered-field arithmetic); channel-model
  quantities are modelled as real numbers.
* `heapq` is the Python standard library; it is modelled by its documented
  contract (a min-heap w.r.t. the lexicographic order of the stored
  `[time, event_id, task]` lists).  All `(time, event_id)` keys are pairwise
  distinct, so every correct min-heap produces the same pop sequence and the
  heap contents are represented in sorted order.
* Code paths that raise a Python exception are modelled as `none` /
  `Except.error` results.
-/

namespace PySim

/-- Simulated time and delays (Python floats) are modelled as rationals. -/
abbrev Time := ℚ

/-- Source `ExitReason` enum, simulator.py lines 24-29.  Note that the enum has
no member for reaching a maximum number of events. -/
inductive ExitReason where
  | NO_MORE_EVENTS
  | REACHED_REAL_TIME_LIMIT
  | REACHED_SIM_TIME_LIMIT
  | STOPPED
  | INTERRUPTED
  deriving DecidableEq

/-- One entry of the `_event_list` heap: the Python list
`[time, event_id, task]`.  A cancelled entry has `task = none`
(source: `event[-1] = None` in `EventQueue.cancel`). -/
structure Entry (α : Type) where
  time : Time
  id : ℕ
  task : Option α
  deriving DecidableEq

/-- Python compares the `[time, event_id, task]` lists lexicographically;
since event ids are unique the comparison is always decided by
`(time, event_id)` and never reaches `task`. -/
def entLe {α : Type} (a b : Entry α) : Prop :=
  a.time < b.time ∨ (a.time = b.time ∧ a.id ≤ b.id)

instance {α : Type} : DecidableRel (@entLe α) := fun a b => by
  unfold entLe; exact inferInstance

instance {α : Type} : IsTotal (Entry α) entLe := by
  constructor
  intro a b
  rcases lt_trichotomy a.time b.time with h | h | h
  · exact Or.inl (Or.inl h)
  · rcases Nat.le_total a.id b.id with h2 | h2
    · exact Or.inl (Or.inr ⟨h, h2⟩)
    · exact Or.inr (Or.inr ⟨h.symm, h2⟩)
  · exact Or.inr (Or.inl h)

instance {α : Type} : IsTrans (Entry α) entLe := by
  constructor
  rintro a b c (h1 | ⟨h1, h1'⟩) (h2 | ⟨h2, h2'⟩)
  · exact Or.inl (h1.trans h2)
  · exact Or.inl (h2 ▸ h1)
  · exact Or.inl (h1 ▸ h2)
  · exact Or.inr ⟨h1.trans h2, h1'.trans h2'⟩

/-- Source `EventQueue` (simulator.py lines 185-266).  `_event_list` is the heap
(kept in its sorted order, see the header comment) and `_next_id` is the
`itertools.count()` counter.  The `_event_dict` of live events is derived:
it holds exactly the entries whose `task` is not `None`, because `push`
inserts into both, while `pop` and `cancel` remove an entry from the dict
exactly when they return it resp. tombstone it. -/
structure EventQueue (α : Type) where
  event_list : List (Entry α)
  next_id : ℕ
  deriving DecidableEq

namespace EventQueue

/-- The entries that are in `_event_dict`: the live (non-cancelled) ones. -/
def live {α : Type} (q : EventQueue α) : List (Entry α) :=
  q.event_list.filter (fun e => e.task.isSome)

/-- Source `EventQueue.__len__`: `len(self._event_dict)`. -/
def len {α : Type} (q : EventQueue α) : ℕ := q.live.length

/-- Source `EventQueue.empty`: `len(self._event_dict) == 0`. -/
def emptyQ {α : Type} (q : EventQueue α) : Bool := q.len = 0

/-- Source `EventQueue.push` (lines 204-224): take a fresh id from the counter,
form the list `[time, event_id, task]`, record it in `_event_dict` and
`heapq.heappush` it.  Returns the new queue and the event id. -/
def push {α : Type} (q : EventQueue α) (time : Time) (task : α) :
    EventQueue α × ℕ :=
  let event : Entry α := ⟨time, q.next_id, some task⟩
  (⟨q.event_list.orderedInsert entLe event, q.next_id + 1⟩, q.next_id)

/-- Source `EventQueue.pop` (lines 226-237): raises `KeyError` when `self.empty`
(modelled as `none`); otherwise `heappop` repeatedly while the popped
entry's `task is None`, then remove the returned event from `_event_dict`.
The cancelled entries skipped on the way are discarded from the heap. -/
def pop {α : Type} (q : EventQueue α) :
    Option ((Time × ℕ × α) × EventQueue α) :=
  match q.event_list.dropWhile (fun e => e.task.isNone) with
  | [] => none
  | e :: rest =>
    match e.task with
    | some t => some ((e.time, e.id, t), ⟨rest, q.next_id⟩)
    | none => none

/-- Source `EventQueue.cancel` (lines 245-252): if the id is a key of
`_event_dict`, remove it from the dict and set the heap entry's task slot
to `None`; otherwise do nothing.  Removing the dict entry and tombstoning
the heap entry are the same update in this representation. -/
def cancel {α : Type} (q : EventQueue α) (event_id : ℕ) : EventQueue α :=
  ⟨q.event_list.map
      (fun e => if e.id = event_id then { e with task := none } else e),
   q.next_id⟩

/-- Source `EventQueue.clear` (lines 254-259). -/
def clear {α : Type} (_q : EventQueue α) : EventQueue α := ⟨[], 0⟩

/-- Well-formedness maintained by the operations: the heap list is in
sorted order, ids are pairwise distinct, and every stored id was produced
by the counter, hence is below `next_id`. -/
def WF {α : Type} (q : EventQueue α) : Prop :=
  q.event_list.Sorted entLe ∧
  q.event_list.Pairwise (fun a b => a.id ≠ b.id) ∧
  ∀ e ∈ q.event_list, e.id < q.next_id

instance {α : Type} [DecidableEq α] (q : EventQueue α) : Decidable (WF q) := by
  unfold WF List.Sorted; exact inferInstance

end EventQueue

/-- Source `Kernel.cancel` (simulator.py lines 344-349): if the id is in
`_queue._event_dict` cancel it and return 1, else return 0. -/
def kernelCancelQ {α : Type} (q : EventQueue α) (event_id : ℕ) :
    EventQueue α × ℕ :=
  if q.event_list.any (fun e => e.id = event_id && e.task.isSome) then
    (q.cancel event_id, 1)
  else (q, 0)

namespace EventQueue

theorem wf_push {α : Type} {q : EventQueue α} (h : q.WF) (t : Time) (task : α) :
    (q.push t task).1.WF := by
  obtain ⟨hs, hne, hub⟩ := h
  refine ⟨?_, ?_, ?_⟩
  · exact hs.orderedInsert ⟨t, q.next_id, some task⟩ q.event_list
  · have hperm := List.perm_orderedInsert entLe
      (⟨t, q.next_id, some task⟩ : Entry α) q.event_list
    refine ((List.Perm.pairwise_iff (fun hab => hab.symm) hperm).mpr ?_)
    refine List.pairwise_cons.mpr ⟨?_, hne⟩
    intro e he
    have := hub e he
    show q.next_id ≠ e.id
    omega
  · intro e he
    rcases (List.mem_orderedInsert entLe).mp he with rfl | he'
    · simp [push]
    · exact Nat.lt_succ_of_lt (hub e he')

theorem wf_cancel {α : Type} {q : EventQueue α} (h : q.WF) (i : ℕ) :
    (q.cancel i).WF := by
  obtain ⟨hs, hne, hub⟩ := h
  have hkeep : ∀ e : Entry α,
      ((if e.id = i then { e with task := none } else e) : Entry α).time = e.time ∧
      ((if e.id = i then { e with task := none } else e) : Entry α).id = e.id := by
    intro e; split <;> exact ⟨rfl, rfl⟩
  refine ⟨?_, ?_, ?_⟩
  · refine List.Pairwise.map _ ?_ hs
    intro a b hab
    rcases hab with h1 | ⟨h1, h2⟩
    · exact Or.inl (by rw [(hkeep a).1, (hkeep b).1]; exact h1)
    · exact Or.inr ⟨by rw [(hkeep a).1, (hkeep b).1]; exact h1,
        by rw [(hkeep a).2, (hkeep b).2]; exact h2⟩
  · refine List.Pairwise.map _ ?_ hne
    intro a b hab
    rw [(hkeep a).2, (hkeep b).2]; exact hab
  · intro e he
    rcases List.mem_map.mp he with ⟨e', he', rfl⟩
    rw [(hkeep e').2]
    exact hub e' he'

theorem wf_kernelCancelQ {α : Type} {q : EventQueue α} (h : q.WF) (i : ℕ) :
    (kernelCancelQ q i).1.WF := by
  unfold kernelCancelQ
  split
  · exact wf_cancel h i
  · exact h

/-- Destructing a successful `pop`: the returned triple is the minimum
live entry of a well-formed queue, strictly below all remaining entries
in the `(time, id)` order, and well-formedness is preserved. -/
theorem pop_min {α : Type} {q : EventQueue α} {t : Time} {i : ℕ} {a : α}
    {q' : EventQueue α} (h : q.WF) (hp : q.pop = some ((t, i, a), q')) :
    q'.WF ∧ q'.next_id = q.next_id ∧ (⟨t, i, some a⟩ : Entry α) ∈ q.event_list ∧
      ∀ e ∈ q'.event_list, t < e.time ∨ (t = e.time ∧ i < e.id) := by
  obtain ⟨hs, hne, hub⟩ := h
  unfold pop at hp
  rcases hd : q.event_list.dropWhile (fun e => e.task.isNone) with _ | ⟨e, rest⟩
  · rw [hd] at hp; exact absurd hp (by simp)
  · rw [hd] at hp
    dsimp only at hp
    rcases ht : e.task with _ | a'
    · rw [ht] at hp; exact absurd hp (by simp)
    · rw [ht] at hp
      dsimp only at hp
      simp only [Option.some.injEq, Prod.mk.injEq] at hp
      obtain ⟨⟨ht1, ht2, ht3⟩, hq'⟩ := hp
      subst ht1; subst ht2; subst ht3; subst hq'
      have hsub : (e :: rest).Sublist q.event_list := by
        rw [← hd]; exact List.dropWhile_sublist _
      have hsorted : (e :: rest).Pairwise entLe := hs.sublist hsub
      have hnedrop : (e :: rest).Pairwise (fun a b => a.id ≠ b.id) :=
        hne.sublist hsub
      have hmem : e ∈ q.event_list := hsub.subset (List.mem_cons_self e rest)
      have hee : (⟨e.time, e.id, some a'⟩ : Entry α) = e := by rw [← ht]
      refine ⟨⟨(List.pairwise_cons.mp hsorted).2,
        (List.pairwise_cons.mp hnedrop).2, ?_⟩, rfl, hee ▸ hmem, ?_⟩
      · intro x hx
        exact hub x (hsub.subset (List.mem_cons_of_mem e hx))
      · intro x hx
        have hle := (List.pairwise_cons.mp hsorted).1 x hx
        have hid := (List.pairwise_cons.mp hnedrop).1 x hx
        rcases hle with h1 | ⟨h1, h2⟩
        · exact Or.inl h1
        · exact Or.inr ⟨h1, lt_of_le_of_ne h2 hid⟩

theorem pop_length_lt {α : Type} {q : EventQueue α} {r : Time × ℕ × α}
    {q' : EventQueue α} (hp : q.pop = some (r, q')) :
    q'.event_list.length < q.event_list.length := by
  unfold pop at hp
  rcases hd : q.event_list.dropWhile (fun e => e.task.isNone) with _ | ⟨e, rest⟩
  · rw [hd] at hp; exact absurd hp (by simp)
  · rw [hd] at hp
    dsimp only at hp
    rcases ht : e.task with _ | a'
    · rw [ht] at hp; exact absurd hp (by simp)
    · rw [ht] at hp
      dsimp only at hp
      simp only [Option.some.injEq, Prod.mk.injEq] at hp
      obtain ⟨-, hq'⟩ := hp
      have hlen : (e :: rest).length ≤ q.event_list.length := by
        rw [← hd]; exact (List.dropWhile_sublist _).length_le
      rw [← hq']
      simpa using Nat.lt_of_lt_of_le (Nat.lt_succ_self rest.length) hlen

/-- Repeatedly `pop` until the queue is exhausted, collecting the results.
The fuel argument is only a termination bound; `q.event_list.length`
popping steps always suffice. -/
def popAllFuel {α : Type} : ℕ → EventQueue α → List (Time × ℕ × α)
  | 0, _ => []
  | n + 1, q =>
    match q.pop with
    | none => []
    | some (r, q') => r :: popAllFuel n q'

def popAll {α : Type} (q : EventQueue α) : List (Time × ℕ × α) :=
  popAllFuel q.event_list.length q

theorem popAllFuel_head {α : Type} {n : ℕ} {q : EventQueue α}
    {r : Time × ℕ × α} (h : (popAllFuel n q).head? = some r) :
    ∃ q'', q.pop = some (r, q'') := by
  cases n with
  | zero => simp [popAllFuel] at h
  | succ n =>
    unfold popAllFuel at h
    rcases hp : q.pop with _ | ⟨r', q''⟩
    · rw [hp] at h; simp at h
    · rw [hp] at h
      simp only [List.head?_cons, Option.some.injEq] at h
      exact ⟨q'', by rw [← h]⟩

theorem popAllFuel_chain {α : Type} :
    ∀ (n : ℕ) (q : EventQueue α), q.WF →
      (popAllFuel n q).Chain'
        (fun a b => a.1 < b.1 ∨ (a.1 = b.1 ∧ a.2.1 < b.2.1)) := by
  intro n
  induction n with
  | zero => intro q _; simp [popAllFuel]
  | succ n ih =>
    intro q hwf
    unfold popAllFuel
    rcases hp : q.pop with _ | ⟨⟨t, i, a⟩, q'⟩
    · simp
    · obtain ⟨hwf', _, _, hmin⟩ := pop_min hwf hp
      refine List.chain'_cons'.mpr ⟨?_, ih q' hwf'⟩
      intro r2 hr2
      obtain ⟨q'', hp2⟩ := popAllFuel_head hr2
      obtain ⟨t2, i2, a2⟩ := r2
      obtain ⟨_, _, hmem2, _⟩ := pop_min hwf' hp2
      exact hmin _ hmem2

theorem popAll_chain {α : Type} (q : EventQueue α) (hwf : q.WF) :
    (popAll q).Chain'
      (fun a b => a.1 < b.1 ∨ (a.1 = b.1 ∧ a.2.1 < b.2.1)) :=
  popAllFuel_chain _ q hwf

end EventQueue

/-! Kernel state (the mutable fields of `Kernel`, simulator.py 269-459).
The wall clock (`time.time()`), external to the program, is supplied to
the run loop as an oracle.  `max_num_events` is stored by
`set_max_num_events` but — as `stop_conditions` shows — never read. -/

structure KernelSt (α : Type) where
  queue : EventQueue α
  sim_time : Time
  max_sim_time : Option Time
  max_real_time : Option Time
  max_num_events : Option ℕ
  user_stop : Bool
  stop_reason : Option ExitReason
  stop_msg : String
  num_events_served : ℕ
  lhandler : Option α
  deriving DecidableEq

namespace KernelSt

/-- Source `Kernel.schedule` (simulator.py lines 332-342):
`if delay is not None: return self._queue.push(self._sim_time + delay, task)`;
otherwise `return None`.  There is no check of the sign of `delay`
(`SchedulingInPastError`, defined at lines 19-21, is never raised). -/
def schedule {α : Type} (st : KernelSt α) (delay : Option Time) (task : α) :
    KernelSt α × Option ℕ :=
  match delay with
  | some d =>
    let res := st.queue.push (st.sim_time + d) task
    ({ st with queue := res.1 }, some res.2)
  | none => (st, none)

/-- Source `Kernel.stop` (simulator.py lines 351-355). -/
def stop {α : Type} (st : KernelSt α) (msg : String) : KernelSt α :=
  { st with stop_reason := some ExitReason.STOPPED, user_stop := true,
            stop_msg := msg }

/-- Source `Kernel.cancel` on the kernel state. -/
def cancel {α : Type} (st : KernelSt α) (event_id : ℕ) : KernelSt α × ℕ :=
  let res := kernelCancelQ st.queue event_id
  ({ st with queue := res.1 }, res.2)

end KernelSt

/-! Caller-side operation sequences on an `EventQueue`, used to state the
queue-ordering and cancellation properties over arbitrary usage. -/

/-- A push or a `Kernel.cancel` request. -/
inductive PCOp (α : Type) where
  | pushO (t : Time) (task : α)
  | cancelO (id : ℕ)
  deriving DecidableEq

def pcStep {α : Type} (q : EventQueue α) (op : PCOp α) : EventQueue α :=
  match op with
  | .pushO t task => (q.push t task).1
  | .cancelO i => (kernelCancelQ q i).1

/-- Apply a sequence of push/cancel requests to the empty queue. -/
def applyPC {α : Type} (ops : List (PCOp α)) : EventQueue α :=
  ops.foldl pcStep ⟨[], 0⟩

theorem wf_pcStep {α : Type} {q : EventQueue α} (h : q.WF) (op : PCOp α) :
    (pcStep q op).WF := by
  cases op with
  | pushO t task => exact EventQueue.wf_push h t task
  | cancelO i => exact EventQueue.wf_kernelCancelQ h i

theorem wf_applyPC {α : Type} (ops : List (PCOp α)) : (applyPC ops).WF := by
  unfold applyPC
  have hwf0 : (⟨[], 0⟩ : EventQueue α).WF := by
    refine ⟨List.sorted_nil, List.Pairwise.nil, ?_⟩
    intro e he; exact absurd he (by simp)
  generalize (⟨[], 0⟩ : EventQueue α) = q at hwf0 ⊢
  induction ops generalizing q with
  | nil => exact hwf0
  | cons op ops ih => exact ih _ (wf_pcStep hwf0 op)

/-- A push, a `Kernel.cancel` request, or a pop. -/
inductive QOp (α : Type) where
  | pushO (t : Time) (task : α)
  | cancelO (id : ℕ)
  | popO
  deriving DecidableEq

/-- Run a sequence of operations, collecting every value returned by a
successful `pop` (a pop on an empty queue raises `KeyError` in the
source; here it leaves the queue unchanged and records nothing). -/
def runOps {α : Type} (ops : List (QOp α)) (q : EventQueue α) :
    EventQueue α × List (Time × ℕ × α) :=
  ops.foldl
    (fun acc op =>
      match op with
      | .pushO t task => ((acc.1.push t task).1, acc.2)
      | .cancelO i => ((kernelCancelQ acc.1 i).1, acc.2)
      | .popO =>
        match acc.1.pop with
        | none => acc
        | some (r, q') => (q', acc.2 ++ [r]))
    (q, [])

/-- The id `i` is dead in `q`: no live entry carries it, and the counter
has moved past it, so no future push can reuse it. -/
def DeadId {α : Type} (q : EventQueue α) (i : ℕ) : Prop :=
  (∀ e ∈ q.event_list, e.id = i → e.task = none) ∧ i < q.next_id

theorem deadId_push {α : Type} {q : EventQueue α} {i : ℕ} (h : DeadId q i)
    (t : Time) (task : α) : DeadId (q.push t task).1 i := by
  obtain ⟨hdead, hlt⟩ := h
  refine ⟨?_, Nat.lt_succ_of_lt hlt⟩
  intro e he hid
  rcases (List.mem_orderedInsert entLe).mp he with rfl | he'
  · exact absurd hid (by simp only []; omega)
  · exact hdead e he' hid

theorem deadId_cancel {α : Type} {q : EventQueue α} {i : ℕ} (h : DeadId q i)
    (j : ℕ) : DeadId (q.cancel j) i := by
  obtain ⟨hdead, hlt⟩ := h
  refine ⟨?_, hlt⟩
  intro e he hid
  rcases List.mem_map.mp he with ⟨e', he', rfl⟩
  by_cases hj : e'.id = j
  · simp [hj]
  · simp only [hj, if_neg, ite_false] at hid ⊢
    exact hdead e' he' hid

theorem deadId_kernelCancelQ {α : Type} {q : EventQueue α} {i : ℕ}
    (h : DeadId q i) (j : ℕ) : DeadId (kernelCancelQ q j).1 i := by
  unfold kernelCancelQ
  split
  · exact deadId_cancel h j
  · exact h

theorem deadId_pop {α : Type} {q : EventQueue α} {i : ℕ} (h : DeadId q i)
    {r : Time × ℕ × α} {q' : EventQueue α} (hp : q.pop = some (r, q')) :
    DeadId q' i ∧ r.2.1 ≠ i := by
  obtain ⟨hdead, hlt⟩ := h
  obtain ⟨t, j, a⟩ := r
  unfold EventQueue.pop at hp
  rcases hd : q.event_list.dropWhile (fun e => e.task.isNone) with _ | ⟨e, rest⟩
  · rw [hd] at hp; exact absurd hp (by simp)
  · rw [hd] at hp
    dsimp only at hp
    rcases ht : e.task with _ | a'
    · rw [ht] at hp; exact absurd hp (by simp)
    · rw [ht] at hp
      dsimp only at hp
      simp only [Option.some.injEq, Prod.mk.injEq] at hp
      obtain ⟨⟨ht1, ht2, ht3⟩, hq'⟩ := hp
      have hsub : (e :: rest).Sublist q.event_list := by
        rw [← hd]; exact List.dropWhile_sublist _
      constructor
      · refine ⟨?_, by rw [← hq']; exact hlt⟩
        intro x hx hid
        have hxmem : x ∈ q.event_list := by
          refine hsub.subset (List.mem_cons_of_mem e ?_)
          rw [← hq'] at hx; exact hx
        exact hdead x hxmem hid
      · show j ≠ i
        intro hji
        have hemem : e ∈ q.event_list := hsub.subset (List.mem_cons_self e rest)
        have := hdead e hemem (by rw [ht2, hji])
        rw [this] at ht
        exact Option.noConfusion ht

theorem deadId_runOps {α : Type} {q : EventQueue α} {i : ℕ} (h : DeadId q i)
    (ops : List (QOp α)) :
    ∀ r ∈ (runOps ops q).2, r.2.1 ≠ i := by
  suffices hgen : ∀ (ops : List (QOp α)) (q0 : EventQueue α)
      (acc : List (Time × ℕ × α)), DeadId q0 i → (∀ r ∈ acc, r.2.1 ≠ i) →
      ∀ r ∈ (ops.foldl
        (fun acc op =>
          match op with
          | QOp.pushO t task => ((acc.1.push t task).1, acc.2)
          | QOp.cancelO j => ((kernelCancelQ acc.1 j).1, acc.2)
          | QOp.popO =>
            match acc.1.pop with
            | none => acc
            | some (r, q') => (q', acc.2 ++ [r])) (q0, acc)).2, r.2.1 ≠ i by
    intro r hr
    exact hgen ops q [] h (by intro r hr; exact absurd hr (by simp)) r hr
  intro ops
  induction ops with
  | nil => intro q0 acc hq hacc r hr; exact hacc r hr
  | cons op ops ih =>
    intro q0 acc hq hacc r hr
    cases op with
    | pushO t task =>
      exact ih _ _ (deadId_push hq t task) hacc r hr
    | cancelO j =>
      exact ih _ _ (deadId_kernelCancelQ hq j) hacc r hr
    | popO =>
      rcases hp : q0.pop with _ | ⟨r', q'⟩
      · simp only [List.foldl_cons, hp] at hr
        exact ih _ _ hq hacc r hr
      · obtain ⟨hq', hne⟩ := deadId_pop hq hp
        simp only [List.foldl_cons, hp] at hr
        refine ih _ _ hq' ?_ r hr
        intro r2 hr2
        rcases List.mem_append.mp hr2 with h2 | h2
        · exact hacc r2 h2
        · rw [List.mem_singleton.mp h2]; exact hne

/-- The id `i` currently has a live (pending) entry in the queue. -/
def LiveId {α : Type} (q : EventQueue α) (i : ℕ) : Prop :=
  ∃ e ∈ q.event_list, e.id = i ∧ e.task.isSome

instance {α : Type} (q : EventQueue α) (i : ℕ) : Decidable (LiveId q i) := by
  unfold LiveId; exact inferInstance

theorem liveId_any {α : Type} (q : EventQueue α) (i : ℕ) :
    (q.event_list.any (fun e => e.id = i && e.task.isSome)) = true ↔
      LiveId q i := by
  simp [LiveId, List.any_eq_true]

theorem kernelCancelQ_pos {α : Type} {q : EventQueue α} {i : ℕ}
    (hl : LiveId q i) : kernelCancelQ q i = (q.cancel i, 1) := by
  rw [kernelCancelQ, if_pos ((liveId_any q i).mpr hl)]

theorem kernelCancelQ_neg {α : Type} {q : EventQueue α} {i : ℕ}
    (hl : ¬ LiveId q i) : kernelCancelQ q i = (q, 0) := by
  rw [kernelCancelQ, if_neg]
  intro hany
  exact hl ((liveId_any q i).mp hany)

theorem not_liveId_cancel {α : Type} (q : EventQueue α) (i : ℕ) :
    ¬ LiveId (q.cancel i) i := by
  rintro ⟨e, he, hid, hsome⟩
  rcases List.mem_map.mp he with ⟨e', he', rfl⟩
  by_cases hj : e'.id = i
  · rw [if_pos hj] at hsome
    simp at hsome
  · rw [if_neg hj] at hid
    exact hj hid

theorem deadId_after_kernelCancel {α : Type} {q : EventQueue α} {i : ℕ}
    (hl : LiveId q i) (hwf : q.WF) : DeadId (kernelCancelQ q i).1 i := by
  rw [kernelCancelQ_pos hl]
  refine ⟨?_, ?_⟩
  · intro e he hid
    rcases List.mem_map.mp he with ⟨e', he', rfl⟩
    by_cases hj : e'.id = i
    · rw [if_pos hj]
    · rw [if_neg hj] at hid
      exact absurd hid hj
  · obtain ⟨e, he, hid, -⟩ := hl
    have := hwf.2.2 e he
    show i < q.next_id
    omega

/-- C2: evaluation of `Kernel.schedule` at a negative delay.  With the
clock at 0, `schedule(-1, task)` returns a fresh event id and enqueues
the event at time `-1`, i.e. strictly before "now" — no
`SchedulingInPastError` is raised anywhere (the exception class at
simulator.py lines 19-21 is never used), so the event is silently
scheduled in the past. -/
theorem schedule_negative_delay_enqueues_in_past :
    (((⟨⟨[], 0⟩, 0, none, none, none, false, none, "", 0, none⟩ :
        KernelSt ℕ).schedule (some (-1)) 7).2 = some 0) ∧
    (((⟨⟨[], 0⟩, 0, none, none, none, false, none, "", 0, none⟩ :
        KernelSt ℕ).schedule (some (-1)) 7).1.queue.event_list =
      [⟨-1, 0, some 7⟩]) ∧
    ((-1 : Time) < (0 : Time)) := by
  refine ⟨rfl, ?_, by norm_num⟩
  simp only [KernelSt.schedule, EventQueue.push, List.orderedInsert]
  norm_num

/-- C4 (counterexample): with pops interleaved between pushes, successive
pops can return strictly decreasing times: push time 5, pop it, push
time 3, pop it — the second popped time 3 is smaller than the first
popped time 5. -/
theorem queue_interleaved_pop_decreasing :
    ((runOps [QOp.pushO 5 0, QOp.popO, QOp.pushO 3 1, QOp.popO]
        (⟨[], 0⟩ : EventQueue ℕ)).2 = [(5, 0, 0), (3, 1, 1)]) ∧
    ¬ ((5 : Time) ≤ 3) := by decide

/-- C4 (amended): for any finite sequence of `push` and cancel calls
applied to a fresh queue, successive `pop` calls (with no further pushes
interleaved) return events with non-decreasing times, and events pushed
with equal times are returned in the order they were pushed — the pop
sequence is ordered strictly by `(time, insertion sequence)`, the
insertion sequence being the monotonically assigned event id. -/
theorem queue_pop_order (α : Type) (ops : List (PCOp α)) :
    (EventQueue.popAll (applyPC ops)).Chain'
      (fun a b => a.1 ≤ b.1 ∧ (a.1 = b.1 → a.2.1 < b.2.1)) := by
  refine (EventQueue.popAll_chain (applyPC ops) (wf_applyPC ops)).imp ?_
  rintro a b (h1 | ⟨h1, h2⟩)
  · exact ⟨le_of_lt h1, fun he => absurd he (ne_of_lt h1)⟩
  · exact ⟨le_of_eq h1, fun _ => h2⟩

/-- C5: cancelling a pending event returns 1 and cancelling the same id
again returns 0; cancelling an unknown or already-cancelled id returns 0
and leaves the queue untouched (`Kernel.cancel` raises nothing: it is a
total function); and once an id is cancelled, no later sequence of
pushes, cancels and pops ever pops it, hence the run loop (which
dispatches exactly what `pop` returns) never dispatches it. -/
theorem cancel_idempotent_never_dispatched (α : Type) (q : EventQueue α)
    (i : ℕ) (hwf : q.WF) :
    (LiveId q i →
      (kernelCancelQ q i).2 = 1 ∧
      (kernelCancelQ (kernelCancelQ q i).1 i).2 = 0) ∧
    (¬ LiveId q i → (kernelCancelQ q i).2 = 0 ∧ (kernelCancelQ q i).1 = q) ∧
    (LiveId q i → ∀ ops : List (QOp α),
      ∀ r ∈ (runOps ops (kernelCancelQ q i).1).2, r.2.1 ≠ i) := by
  refine ⟨?_, ?_, ?_⟩
  · intro hl
    constructor
    · rw [kernelCancelQ_pos hl]
    · rw [kernelCancelQ_pos hl]
      rw [kernelCancelQ_neg (not_liveId_cancel q i)]
  · intro hnl
    rw [kernelCancelQ_neg hnl]
    exact ⟨rfl, rfl⟩
  · intro hl ops r hr
    exact deadId_runOps (deadId_after_kernelCancel hl hwf) ops r hr

/-! The run loop (`Kernel.build_runner`, simulator.py 406-455).  Handlers
are arbitrary Python callables; they interact with the kernel only
through the facade (schedule / call / cancel / stop), so they are
embedded as programs over exactly those effects.  The wall clock
(`time.time() - self._t_start`) is an external input, supplied as an
oracle indexed by the number of events served so far; the Python loop
can also fail to terminate, which the fuel argument makes explicit
(`none` = did not exit within `fuel` iterations). -/

/-- A handler body: a sequence of facade calls. -/
inductive HProg where
  | nil
  | scheduleA (delay : Time) (h : HProg) (rest : HProg)
  | stopA (msg : String) (rest : HProg)
  | cancelA (id : ℕ) (rest : HProg)
  deriving DecidableEq

/-- Run a handler body against the kernel state through the facade. -/
def execProg : HProg → KernelSt HProg → KernelSt HProg
  | .nil, st => st
  | .scheduleA d h rest, st => execProg rest (st.schedule (some d) h).1
  | .stopA msg rest, st => execProg rest (st.stop msg)
  | .cancelA i rest, st => execProg rest (st.cancel i).1

/-- Source `o is not None and o < x` (the shape of both limit checks in
`Kernel.stop_conditions`). -/
def optGtQ (x : Time) (o : Option Time) : Bool :=
  match o with
  | some m => decide (m < x)
  | none => false

/-- Source `Kernel.stop_conditions` (simulator.py lines 357-366): max sim time,
then max real time, then `_user_stop`.  The method never examines
`_max_num_events` or `_num_events_served`, and `ExitReason` has no
max-event-count member it could report. -/
def KernelSt.stop_conditions {α : Type} (st : KernelSt α)
    (real_elapsed : Time) : Bool × KernelSt α :=
  if optGtQ st.sim_time st.max_sim_time then
    (true, { st with stop_reason := some ExitReason.REACHED_SIM_TIME_LIMIT })
  else if optGtQ real_elapsed st.max_real_time then
    (true, { st with stop_reason := some ExitReason.REACHED_REAL_TIME_LIMIT })
  else if st.user_stop then (true, st)
  else (false, st)

/-- The `while not self._queue.empty and not self.stop_conditions():`
loop of `build_runner`: pop the earliest event, advance the clock to its
time, run its handler, count it and remember it. -/
def runLoop (oracle : ℕ → Time) (fuel : ℕ) (st : KernelSt HProg) :
    Option (KernelSt HProg) :=
  if h : fuel = 0 then none
  else if st.queue.len = 0 then some st
  else
    let sc := st.stop_conditions (oracle st.num_events_served)
    if sc.1 then some sc.2
    else
      match sc.2.queue.pop with
      | none => some sc.2
      | some ((t, _i, prog), q') =>
        let st2 := { sc.2 with queue := q', sim_time := t }
        let st3 := execProg prog st2
        runLoop oracle (fuel - 1)
          { st3 with num_events_served := st3.num_events_served + 1,
                     lhandler := some prog }
termination_by fuel
decreasing_by omega

/-- Source `ExecutionStats` (simulator.py 32-50) as filled in by `build_runner`
(the debug-only fields `next_handler` and `last_sim_time` keep their
defaults there and are omitted). -/
structure ExecutionStats where
  num_events_processed : ℕ
  sim_time : Time
  time_elapsed : Time
  exit_reason : Option ExitReason
  stop_message : String
  last_handler : Option HProg
  deriving DecidableEq

/-- A Python exception escaping `build_runner`. -/
inductive PyErr where
  /-- Source `fin_ret` is referenced in the `yield` tuple without ever having
  been assigned (it is only bound inside `if self._finalize:`). -/
  | unboundLocalFinRet
  deriving DecidableEq

/-- Source `Kernel.build_runner` (simulator.py 406-455): reset the event
counter, run the initializer, mark `NO_MORE_EVENTS` if the queue is
empty right after it, run the loop, call the finalizer if one is set and
yield the statistics together with the finalizer's value.  When no
finalizer was registered the `yield` expression evaluates the unbound
local `fin_ret` and the generator raises instead of yielding (modelled
as `Except.error`).  The model context (`sim.context`) is opaque to the
kernel and is not modelled. -/
def build_runner (oracle : ℕ → Time) (fuel : ℕ) (st0 : KernelSt HProg)
    (init_prog : HProg) (finalize : Option (KernelSt HProg → ℚ)) :
    Option (Except PyErr (ExecutionStats × ℚ)) :=
  let st1 := { st0 with num_events_served := 0 }
  let st2 := execProg init_prog st1
  let st3 := if st2.queue.len = 0
             then { st2 with stop_reason := some ExitReason.NO_MORE_EVENTS }
             else st2
  match runLoop oracle fuel st3 with
  | none => none
  | some stF =>
    match finalize with
    | some f =>
      some (Except.ok
        (⟨stF.num_events_served, stF.sim_time, oracle stF.num_events_served,
          stF.stop_reason, stF.stop_msg, stF.lhandler⟩, f stF))
    | none => some (Except.error PyErr.unboundLocalFinRet)

/-! Facts about runs in which no stop condition ever triggers. -/

/-- Whether a handler body never calls `stop` (also in the handlers it
schedules). -/
def stopFree : HProg → Bool
  | .nil => true
  | .scheduleA _ h rest => stopFree h && stopFree rest
  | .stopA _ _ => false
  | .cancelA _ rest => stopFree rest

/-- Invariant of a run with no stop ceilings and no handler `stop`
call: every queued handler is stop-free, no stop was requested, and no
stop reason was recorded. -/
def SF (st : KernelSt HProg) : Prop :=
  (∀ e ∈ st.queue.event_list, ∀ p, e.task = some p → stopFree p = true) ∧
  st.user_stop = false ∧ st.stop_reason = none ∧
  st.max_sim_time = none ∧ st.max_real_time = none

theorem pop_mem {α : Type} {q : EventQueue α} {t : Time} {i : ℕ} {a : α}
    {q' : EventQueue α} (hp : q.pop = some ((t, i, a), q')) :
    (⟨t, i, some a⟩ : Entry α) ∈ q.event_list ∧ q'.next_id = q.next_id ∧
      ∀ e ∈ q'.event_list, e ∈ q.event_list := by
  unfold EventQueue.pop at hp
  rcases hd : q.event_list.dropWhile (fun e => e.task.isNone) with _ | ⟨e, rest⟩
  · rw [hd] at hp; exact absurd hp (by simp)
  · rw [hd] at hp
    dsimp only at hp
    rcases ht : e.task with _ | a'
    · rw [ht] at hp; exact absurd hp (by simp)
    · rw [ht] at hp
      dsimp only at hp
      simp only [Option.some.injEq, Prod.mk.injEq] at hp
      obtain ⟨⟨ht1, ht2, ht3⟩, hq'⟩ := hp
      have hsub : (e :: rest).Sublist q.event_list := by
        rw [← hd]; exact List.dropWhile_sublist _
      refine ⟨?_, by rw [← hq'], ?_⟩
      · have hee : (⟨t, i, some a⟩ : Entry α) = e := by
          rw [← ht1, ← ht2, ← ht3, ← ht]
        rw [hee]
        exact hsub.subset (List.mem_cons_self e rest)
      · intro x hx
        rw [← hq'] at hx
        exact hsub.subset (List.mem_cons_of_mem e hx)

theorem pop_some_of_len {α : Type} {q : EventQueue α} (h : q.len ≠ 0) :
    ∃ r q', q.pop = some (r, q') := by
  unfold EventQueue.pop
  rcases hd : q.event_list.dropWhile (fun e => e.task.isNone) with _ | ⟨e, rest⟩
  · exfalso
    apply h
    have hall : ∀ x ∈ q.event_list, x.task.isNone = true :=
      fun x hx => List.dropWhile_eq_nil_iff.mp hd x hx
    unfold EventQueue.len EventQueue.live
    rw [List.filter_eq_nil_iff.mpr]
    · rfl
    · intro x hx
      have := hall x hx
      simp only [Option.isNone_iff_eq_none] at this
      simp [this]
  · have hfalse : e.task.isNone = false := by
      have := List.head?_dropWhile_not (fun e : Entry α => e.task.isNone)
        q.event_list
      rw [hd] at this
      simpa using this
    rcases ht : e.task with _ | a'
    · rw [ht] at hfalse; simp at hfalse
    · refine ⟨(e.time, e.id, a'), ⟨rest, q.next_id⟩, ?_⟩
      rw [hd]
      dsimp only
      rw [ht]

theorem stop_conditions_id {α : Type} (st : KernelSt α) (x : Time)
    (h1 : st.max_sim_time = none) (h2 : st.max_real_time = none)
    (h3 : st.user_stop = false) : st.stop_conditions x = (false, st) := by
  unfold KernelSt.stop_conditions
  simp [optGtQ, h1, h2, h3]

theorem sf_schedule {st : KernelSt HProg} (h : SF st) (d : Time)
    {p : HProg} (hp : stopFree p = true) : SF (st.schedule (some d) p).1 := by
  obtain ⟨hq, h2, h3, h4, h5⟩ := h
  refine ⟨?_, h2, h3, h4, h5⟩
  intro e he p' hp'
  simp only [KernelSt.schedule, EventQueue.push] at he
  rcases (List.mem_orderedInsert entLe).mp he with rfl | he'
  · cases hp'
    exact hp
  · exact hq e he' p' hp'

theorem sf_cancel {st : KernelSt HProg} (h : SF st) (i : ℕ) :
    SF (st.cancel i).1 := by
  obtain ⟨hq, h2, h3, h4, h5⟩ := h
  refine ⟨?_, h2, h3, h4, h5⟩
  intro e he p' hp'
  simp only [KernelSt.cancel, kernelCancelQ] at he
  rcases hsplit : (st.queue.event_list.any
      (fun e => e.id = i && e.task.isSome)) with _ | _
  · rw [hsplit] at he
    simp only [Bool.false_eq_true, if_neg, ite_false] at he
    exact hq e he p' hp'
  · rw [hsplit] at he
    simp only [if_pos, ite_true, EventQueue.cancel] at he
    rcases List.mem_map.mp he with ⟨e', he', rfl⟩
    by_cases hj : e'.id = i
    · rw [if_pos hj] at hp'
      exact absurd hp' (by simp)
    · rw [if_neg hj] at hp'
      exact hq e' he' p' hp'

theorem sf_execProg : ∀ (p : HProg) (st : KernelSt HProg),
    stopFree p = true → SF st → SF (execProg p st) := by
  intro p
  induction p with
  | nil => intro st _ h; exact h
  | scheduleA d hbody rest ihb ihr =>
    intro st hsf h
    simp only [stopFree, Bool.and_eq_true] at hsf
    exact ihr _ hsf.2 (sf_schedule h d hsf.1)
  | stopA msg rest ih =>
    intro st hsf _
    simp [stopFree] at hsf
  | cancelA i rest ih =>
    intro st hsf h
    simp only [stopFree] at hsf
    exact ih _ hsf (sf_cancel h i)

theorem sf_runLoop (oracle : ℕ → Time) : ∀ (fuel : ℕ)
    (st stF : KernelSt HProg), SF st → runLoop oracle fuel st = some stF →
    SF stF ∧ stF.queue.len = 0 := by
  intro fuel
  induction fuel with
  | zero =>
    intro st stF _ hrun
    rw [runLoop, dif_pos rfl] at hrun
    exact absurd hrun (by simp)
  | succ n ih =>
    intro st stF hsf hrun
    rw [runLoop, dif_neg (by omega : ¬ (n + 1 = 0))] at hrun
    by_cases hlen : st.queue.len = 0
    · rw [if_pos hlen] at hrun
      obtain rfl : st = stF := Option.some.inj hrun
      exact ⟨hsf, hlen⟩
    · rw [if_neg hlen] at hrun
      obtain ⟨hq, h2, h3, h4, h5⟩ := hsf
      rw [stop_conditions_id st (oracle st.num_events_served) h4 h5 h2]
        at hrun
      simp only [Bool.false_eq_true, if_neg, ite_false] at hrun
      obtain ⟨⟨t, i, prog⟩, q', hp⟩ := pop_some_of_len hlen
      rw [hp] at hrun
      dsimp only at hrun
      obtain ⟨hmem, -, hsub⟩ := pop_mem hp
      have hprog : stopFree prog = true := hq _ hmem prog rfl
      have hsf2 : SF { st with queue := q', sim_time := t } := by
        refine ⟨?_, h2, h3, h4, h5⟩
        intro e he p' hp'
        exact hq e (hsub e he) p' hp'
      have hsf3 := sf_execProg prog _ hprog hsf2
      simp only [Nat.add_sub_cancel] at hrun
      exact ih _ _ (by exact hsf3) hrun

/-- C10: if the initializer leaves the queue non-empty (so the
`NO_MORE_EVENTS` assignment before the loop does not fire), no stop
ceiling is configured and no handler ever calls `stop`, then however the
queue drains during the run, the returned `ExecutionStats.exit_reason`
is `None`: the run loop exits on the emptiness check without recording
any reason. -/
theorem exit_reason_none_when_queue_drains_mid_run
    (oracle : ℕ → Time) (fuel : ℕ) (st0 : KernelSt HProg) (ip : HProg)
    (f : KernelSt HProg → ℚ) (stats : ExecutionStats) (finv : ℚ)
    (hip : stopFree ip = true)
    (hq0 : st0.queue.event_list = [])
    (hus : st0.user_stop = false) (hsr : st0.stop_reason = none)
    (hms : st0.max_sim_time = none) (hmr : st0.max_real_time = none)
    (hne : (execProg ip { st0 with num_events_served := 0 }).queue.len ≠ 0)
    (hrun : build_runner oracle fuel st0 ip (some f) =
      some (Except.ok (stats, finv))) :
    stats.exit_reason = none := by
  have hsf1 : SF { st0 with num_events_served := 0 } := by
    refine ⟨?_, hus, hsr, hms, hmr⟩
    intro e he
    rw [show ({ st0 with num_events_served := 0 } : KernelSt HProg).queue
      = st0.queue from rfl, hq0] at he
    exact absurd he (by simp)
  have hsf2 := sf_execProg ip _ hip hsf1
  simp only [build_runner] at hrun
  rw [if_neg hne] at hrun
  rcases hr : runLoop oracle fuel
      (execProg ip { st0 with num_events_served := 0 }) with _ | stF
  · rw [hr] at hrun
    exact absurd hrun (by simp)
  · rw [hr] at hrun
    dsimp only at hrun
    simp only [Option.some.injEq, Except.ok.injEq, Prod.mk.injEq] at hrun
    obtain ⟨hstats, -⟩ := hrun
    obtain ⟨hsfF, -⟩ := sf_runLoop oracle fuel _ stF hsf2 hr
    rw [← hstats]
    exact hsfF.2.2.1

/-- Witness for C10: a fresh kernel whose initializer schedules a single
no-op event; the loop processes it, the queue drains mid-run, and the
reported exit reason is `None`. -/
theorem exit_reason_none_when_queue_drains_mid_run_witness :
    (stopFree (HProg.scheduleA 1 .nil .nil) = true) ∧
    (build_runner (fun _ => 0) 3
        ⟨⟨[], 0⟩, 0, none, none, none, false, none, "", 0, none⟩
        (HProg.scheduleA 1 .nil .nil) (some (fun _ => 0)) =
      some (Except.ok (⟨1, 1, 0, none, "", some HProg.nil⟩, 0))) ∧
    (⟨1, 1, 0, none, "", some HProg.nil⟩ :
        ExecutionStats).exit_reason = none := by
  have hev : build_runner (fun _ => 0) 3
      ⟨⟨[], 0⟩, 0, none, none, none, false, none, "", 0, none⟩
      (HProg.scheduleA 1 .nil .nil) (some (fun _ => 0)) =
      some (Except.ok (⟨1, 1, 0, none, "", some HProg.nil⟩, 0)) := by
    norm_num [build_runner, runLoop, execProg, KernelSt.schedule,
      KernelSt.stop_conditions, optGtQ, EventQueue.push, EventQueue.pop,
      EventQueue.len, EventQueue.live, List.orderedInsert, entLe]
  refine ⟨rfl, hev, ?_⟩
  exact exit_reason_none_when_queue_drains_mid_run (fun _ => 0) 3
    ⟨⟨[], 0⟩, 0, none, none, none, false, none, "", 0, none⟩
    (HProg.scheduleA 1 .nil .nil) (fun _ => 0)
    ⟨1, 1, 0, none, "", some HProg.nil⟩ 0
    rfl rfl rfl rfl rfl rfl (by decide) hev

/-- C1: evaluation at the failing input.  A kernel configured with only
`max_num_events = 1` whose initializer schedules two events processes
BOTH events and reports `exit_reason = None`: `stop_conditions`
(simulator.py 357-366) never examines `_max_num_events`, and the
`ExitReason` enum (lines 24-29) has no "reached max event count" member
that could be reported. -/
theorem max_num_events_ignored :
    build_runner (fun _ => 0) 10
      ⟨⟨[], 0⟩, 0, none, none, some 1, false, none, "", 0, none⟩
      (HProg.scheduleA 1 .nil (.scheduleA 2 .nil .nil))
      (some (fun _ => 0)) =
    some (Except.ok (⟨2, 2, 0, none, "", some HProg.nil⟩, 0)) := by
  norm_num [build_runner, runLoop, execProg, KernelSt.schedule,
    KernelSt.stop_conditions, optGtQ, EventQueue.push, EventQueue.pop,
    EventQueue.len, EventQueue.live, List.orderedInsert, entLe]

/-- C7: evaluation of `build_runner` with and without a finalizer on the
same one-event model.  Without a finalizer the `yield` evaluates the
unbound local `fin_ret` and the generator raises `UnboundLocalError`
instead of returning the statistics; with a finalizer the run returns
the statistics and the finalizer's value (here the final sim time). -/
theorem finalizer_required_for_result :
    (build_runner (fun _ => 0) 3
        ⟨⟨[], 0⟩, 0, none, none, none, false, none, "", 0, none⟩
        (HProg.scheduleA 1 .nil .nil) none =
      some (Except.error PyErr.unboundLocalFinRet)) ∧
    (build_runner (fun _ => 0) 3
        ⟨⟨[], 0⟩, 0, none, none, none, false, none, "", 0, none⟩
        (HProg.scheduleA 1 .nil .nil) (some (fun st => st.sim_time)) =
      some (Except.ok (⟨1, 1, 0, none, "", some HProg.nil⟩, 1))) := by
  constructor <;>
    norm_num [build_runner, runLoop, execProg, KernelSt.schedule,
      KernelSt.stop_conditions, optGtQ, EventQueue.push, EventQueue.pop,
      EventQueue.len, EventQueue.live, List.orderedInsert, entLe]

/-- Witness for C5 at a concrete queue: two pushed events, id 0 is live;
cancelling it returns 1, cancelling it again returns 0. -/
theorem cancel_idempotent_never_dispatched_witness :
    ((((⟨[], 0⟩ : EventQueue ℕ).push 1 10).1.push 2 20).1.WF) ∧
    ((kernelCancelQ (((⟨[], 0⟩ : EventQueue ℕ).push 1 10).1.push 2 20).1 0).2 = 1 ∧
     (kernelCancelQ
        (kernelCancelQ (((⟨[], 0⟩ : EventQueue ℕ).push 1 10).1.push 2 20).1 0).1
        0).2 = 0) :=
  ⟨by decide,
    (cancel_idempotent_never_dispatched ℕ
      (((⟨[], 0⟩ : EventQueue ℕ).push 1 10).1.push 2 20).1 0
      (by decide)).1 (by decide)⟩

/-! Q-adjustment controller: pysim/models/rfid/adjust_algs.py and
`apply_query_adjust` in pysim/models/rfid/handlers.py (lines 287-314). -/

/-- Source `QueryAdjustStrategy` enum (adjust_algs.py lines 6-8). -/
inductive QueryAdjustStrategy where
  | STATIC
  | DYNAMIC
  deriving DecidableEq

/-- Python's built-in `round`: round half to even. -/
def pythonRound (x : ℚ) : ℤ :=
  if x - ⌊x⌋ < 1/2 then ⌊x⌋
  else if 1/2 < x - ⌊x⌋ then ⌊x⌋ + 1
  else if ⌊x⌋ % 2 = 0 then ⌊x⌋ else ⌊x⌋ + 1

/-- Source `math.copysign`: the magnitude of `x` with the sign of `y` (over ℚ
there is no negative zero; Python's `copysign(m, 0.0)` is `+m`, matching
the `¬ y < 0` branch). -/
def copysign (x y : ℚ) : ℚ := if y < 0 then -|x| else |x|

/-- Source `static_query_adjust` (adjust_algs.py lines 10-19).  The local
rebinding `if q == 0: q = 0.8` is dead in the source (the rebound `q` is
never read afterwards); it is kept as a discarded binding. -/
def static_query_adjust (q_fp : ℚ) (direction : ℤ) (q : ℤ) : ℚ :=
  let _q : ℚ := if q = 0 then 0.8 else (q : ℚ)
  let delta : ℚ := 0.3
  if direction < 0 then max 0 (q_fp - delta)
  else if 0 < direction then min 15 (q_fp + delta)
  else q_fp

/-- Source `dynamic_query_adjust` (adjust_algs.py lines 21-29). -/
def dynamic_query_adjust (q_fp q delta : ℚ) : ℚ :=
  let magnitude := max 0.1 (0.5 / (1 + 0.04 * q))
  min 15 (max 0 (q_fp + copysign magnitude delta))

/-- The `QUERY_ADJUST_FUNCTIONS` lookup combined with the call site
`adjust_fn(reader.q_fp, direction, reader.q)` (handlers.py line 302).
For `DYNAMIC` the positional call binds `direction` to the function's
`q` parameter and `q` to its `delta` parameter — the two strategies'
signatures differ in the source. -/
def call_adjust (strategy : QueryAdjustStrategy) (q_fp : ℚ) (direction : ℤ)
    (q : ℤ) : ℚ :=
  match strategy with
  | .STATIC => static_query_adjust q_fp direction q
  | .DYNAMIC => dynamic_query_adjust q_fp (direction : ℚ) (q : ℚ)

/-- Modelled from the spec: `Reader.State` lives in
pysim/models/rfid/objects.py, which is not among the provided source
files.  §4.4 lists the reader states
`OFF → QUERY → {QREP ⇄ QAdjust} → ACK → REQ_RN → READ`. -/
inductive ReaderState where
  | OFF
  | QUERY
  | QREP
  | QAdjust
  | ACK
  | REQ_RN
  | READ
  deriving DecidableEq

/-- Modelled from the spec: the `Reader` fields touched by
`apply_query_adjust` (the class is in the missing objects.py): the
slot-count exponent `q` (integer) with floating estimate `q_fp`, the
Q-adjustment enablement, the protocol state, and the `updn` value
carried into the QAdjust command. -/
structure ReaderQ where
  q : ℤ
  q_fp : ℚ
  use_query_adjust : Bool
  state : ReaderState
  updn : ℤ
  deriving DecidableEq

/-- Source `apply_query_adjust` (handlers.py 287-314): under the guard
(`use_query_adjust`, state in {QUERY, QREP}, `0 <= q <= 15`), nudge
`q_fp` with the configured strategy, and iff `abs(q - round(q_fp)) == 1`
set `q` to the rounded value and emit a `QAdjust` command
(`reader.set_state(Reader.State.QAdjust)`, modelled from the spec as
moving the state to `QAdjust`; `updn` is set to `direction` and reset to
0 before returning).  The emitted command frame is modelled by the
`Bool` component.  The strategy is a parameter mirroring the
`QUERY_ADJUST_FUNCTIONS` dispatch; the live code pins it to `STATIC`
(line 300), see `apply_query_adjust_live`. -/
def apply_query_adjust (strategy : QueryAdjustStrategy) (r : ReaderQ)
    (direction : ℤ) : ReaderQ × Bool :=
  if r.use_query_adjust = true ∧
      (r.state = ReaderState.QUERY ∨ r.state = ReaderState.QREP) ∧
      0 ≤ r.q ∧ r.q ≤ 15 then
    let q_fp2 := call_adjust strategy r.q_fp direction r.q
    let new_q := pythonRound q_fp2
    if |r.q - new_q| = 1 then
      ({ r with
          q_fp := q_fp2
          q := new_q
          state := ReaderState.QAdjust
          updn := 0 }, true)
    else ({ r with q_fp := q_fp2 }, false)
  else (r, false)

/-- The live wiring: `strategy = QueryAdjustStrategy.STATIC`
(handlers.py line 300). -/
def apply_query_adjust_live (r : ReaderQ) (direction : ℤ) : ReaderQ × Bool :=
  apply_query_adjust QueryAdjustStrategy.STATIC r direction

/-- Iterated Q-adjustment feedback. -/
def applyAdjustSeq (strategy : QueryAdjustStrategy) (r : ReaderQ)
    (dirs : List ℤ) : ReaderQ :=
  dirs.foldl (fun s d => (apply_query_adjust strategy s d).1) r

theorem pythonRound_bounds {x : ℚ} (h0 : 0 ≤ x) (h15 : x ≤ 15) :
    0 ≤ pythonRound x ∧ pythonRound x ≤ 15 := by
  unfold pythonRound
  have hf0 : (0 : ℤ) ≤ ⌊x⌋ := Int.le_floor.mpr (by exact_mod_cast h0)
  have hf15 : ⌊x⌋ ≤ 15 := by
    have h := (Int.floor_le x).trans h15
    exact_mod_cast h
  by_cases h1 : x - ⌊x⌋ < 1/2
  · rw [if_pos h1]; exact ⟨hf0, hf15⟩
  · rw [if_neg h1]
    have hge : (1 : ℚ)/2 ≤ x - ⌊x⌋ := le_of_not_lt h1
    have hf14 : ⌊x⌋ ≤ 14 := by
      by_contra hc
      push_neg at hc
      have h15' : (15 : ℤ) ≤ ⌊x⌋ := hc
      have hcast : (15 : ℚ) ≤ (⌊x⌋ : ℚ) := by exact_mod_cast h15'
      linarith
    by_cases h2 : 1/2 < x - ⌊x⌋
    · rw [if_pos h2]; omega
    · rw [if_neg h2]
      by_cases h3 : ⌊x⌋ % 2 = 0
      · rw [if_pos h3]; exact ⟨hf0, hf15⟩
      · rw [if_neg h3]; omega

theorem call_adjust_bounds (strategy : QueryAdjustStrategy) {q_fp : ℚ}
    (direction : ℤ) (q : ℤ) (h0 : 0 ≤ q_fp) (h15 : q_fp ≤ 15) :
    0 ≤ call_adjust strategy q_fp direction q ∧
      call_adjust strategy q_fp direction q ≤ 15 := by
  cases strategy with
  | STATIC =>
    simp only [call_adjust, static_query_adjust]
    split_ifs with h1 h2
    · exact ⟨le_max_left 0 _, max_le (by norm_num) (by linarith)⟩
    · exact ⟨le_min (by norm_num) (by linarith), min_le_left 15 _⟩
    · exact ⟨h0, h15⟩
  | DYNAMIC =>
    simp only [call_adjust, dynamic_query_adjust]
    exact ⟨le_min (by norm_num) (le_max_left 0 _), min_le_left 15 _⟩

theorem apply_query_adjust_bounds (strategy : QueryAdjustStrategy)
    {r : ReaderQ} (direction : ℤ) (h1 : 0 ≤ r.q) (h2 : r.q ≤ 15)
    (h3 : 0 ≤ r.q_fp) (h4 : r.q_fp ≤ 15) :
    (0 ≤ (apply_query_adjust strategy r direction).1.q ∧
      (apply_query_adjust strategy r direction).1.q ≤ 15) ∧
    (0 ≤ (apply_query_adjust strategy r direction).1.q_fp ∧
      (apply_query_adjust strategy r direction).1.q_fp ≤ 15) := by
  unfold apply_query_adjust
  by_cases hg : r.use_query_adjust = true ∧
      (r.state = ReaderState.QUERY ∨ r.state = ReaderState.QREP) ∧
      0 ≤ r.q ∧ r.q ≤ 15
  · rw [if_pos hg]
    dsimp only
    obtain ⟨hc0, hc15⟩ := call_adjust_bounds strategy direction r.q h3 h4
    obtain ⟨hr0, hr15⟩ := pythonRound_bounds hc0 hc15
    by_cases he :
        |r.q - pythonRound (call_adjust strategy r.q_fp direction r.q)| = 1
    · rw [if_pos he]
      exact ⟨⟨hr0, hr15⟩, hc0, hc15⟩
    · rw [if_neg he]
      exact ⟨⟨h1, h2⟩, hc0, hc15⟩
  · rw [if_neg hg]
    exact ⟨⟨h1, h2⟩, h3, h4⟩

/-- C6: starting from `q` in [0,15] and `q_fp` in [0,15], under either
strategy, any sequence of collision/empty-slot feedback keeps the
reader's integer `q` inside [0,15]; and a `QAdjust` command is emitted
on an invocation (reader in arbitration with Q-adjustment enabled)
exactly when the rounded estimate after the nudge differs from the
current integer `q` by exactly 1, `q` then being set to that rounded
value (smaller drifts only update `q_fp`). -/
theorem q_bounds_and_emission (strategy : QueryAdjustStrategy) (r : ReaderQ)
    (dirs : List ℤ) (h1 : 0 ≤ r.q) (h2 : r.q ≤ 15) (h3 : 0 ≤ r.q_fp)
    (h4 : r.q_fp ≤ 15) :
    (0 ≤ (applyAdjustSeq strategy r dirs).q ∧
      (applyAdjustSeq strategy r dirs).q ≤ 15) ∧
    (∀ d : ℤ, r.use_query_adjust = true →
      (r.state = ReaderState.QUERY ∨ r.state = ReaderState.QREP) →
      (((apply_query_adjust strategy r d).2 = true ↔
          |r.q - pythonRound (call_adjust strategy r.q_fp d r.q)| = 1) ∧
        ((apply_query_adjust strategy r d).2 = true →
          (apply_query_adjust strategy r d).1.q =
            pythonRound (call_adjust strategy r.q_fp d r.q)))) := by
  constructor
  · suffices hseq : ∀ (dirs : List ℤ) (r : ReaderQ), 0 ≤ r.q → r.q ≤ 15 →
        0 ≤ r.q_fp → r.q_fp ≤ 15 →
        0 ≤ (applyAdjustSeq strategy r dirs).q ∧
          (applyAdjustSeq strategy r dirs).q ≤ 15 ∧
          0 ≤ (applyAdjustSeq strategy r dirs).q_fp ∧
          (applyAdjustSeq strategy r dirs).q_fp ≤ 15 by
      obtain ⟨a, b, -, -⟩ := hseq dirs r h1 h2 h3 h4
      exact ⟨a, b⟩
    intro dirs
    induction dirs with
    | nil => intro r h1 h2 h3 h4; exact ⟨h1, h2, h3, h4⟩
    | cons d dirs ih =>
      intro r h1 h2 h3 h4
      obtain ⟨⟨a1, a2⟩, a3, a4⟩ := apply_query_adjust_bounds strategy d
        h1 h2 h3 h4
      exact ih _ a1 a2 a3 a4
  · intro d huse hstate
    unfold apply_query_adjust
    rw [if_pos ⟨huse, hstate, h1, h2⟩]
    dsimp only
    by_cases he :
        |r.q - pythonRound (call_adjust strategy r.q_fp d r.q)| = 1
    · rw [if_pos he]
      exact ⟨by simp [he], fun _ => rfl⟩
    · rw [if_neg he]
      exact ⟨by simp [he], fun hcontra => absurd hcontra (by simp)⟩

/-- Witness for C6 at a concrete reader (`q = 4`, `q_fp = 4`, adjustment
enabled, in `QUERY`) with feedback `[+1, -1, +1]` under the live
(`STATIC`) strategy. -/
theorem q_bounds_and_emission_witness :
    (0 ≤ (applyAdjustSeq QueryAdjustStrategy.STATIC
        ⟨4, 4, true, ReaderState.QUERY, 0⟩ [1, -1, 1]).q ∧
      (applyAdjustSeq QueryAdjustStrategy.STATIC
        ⟨4, 4, true, ReaderState.QUERY, 0⟩ [1, -1, 1]).q ≤ 15) ∧
    ((apply_query_adjust QueryAdjustStrategy.STATIC
        ⟨4, 4, true, ReaderState.QUERY, 0⟩ 1).2 = true ↔
      |(4 : ℤ) - pythonRound (call_adjust QueryAdjustStrategy.STATIC
        4 1 4)| = 1) := by
  have h := q_bounds_and_emission QueryAdjustStrategy.STATIC
    ⟨4, 4, true, ReaderState.QUERY, 0⟩ [1, -1, 1]
    (by norm_num) (by norm_num) (by norm_num) (by norm_num)
  exact ⟨h.1, (h.2 1 rfl (Or.inl rfl)).1⟩

/-! `finish_transaction` (handlers.py 317-348): after resolving the old
transaction into the next command, the new transaction built by
`_build_transaction` is installed and its events are scheduled
(lines 341-348). -/

/-- Modelled from the spec: the `Transaction` class lives in
pysim/models/rfid/objects.py, which is not among the provided source
files.  §3: a Transaction carries "the command's total duration, and
pending event ids for its timeout and for a mid-duration power-update
callback"; `reply_start_time` is the absolute time at which the
command's reply window opens (`None` when it does not open before the
end, cf. `turn_reader_on`, handlers.py 138-140). -/
structure Transaction where
  duration : Time
  reply_start_time : Option Time
  timeout_event_id : Option ℕ
  response_start_event_id : Option ℕ
  deriving DecidableEq

/-- The two handlers that `finish_transaction` schedules, with their
argument. -/
inductive RfidTask where
  | finishT (t : Transaction)
  | updatePowerT (t : Transaction)
  deriving DecidableEq

/-- The scheduling tail of `finish_transaction` (handlers.py 341-348),
with `new_t` standing for the transaction returned by
`_build_transaction(kernel, ctx.reader, cmd_frame)`:

* `ctx.transaction.timeout_event_id = kernel.schedule(transaction.duration,
  finish_transaction, (ctx.transaction,))` — the delay taken from the OLD
  `transaction` parameter, the argument being the new one;
* `if transaction.reply_start_time is not None: dt =
  transaction.reply_start_time - kernel.time;
  kernel.schedule(dt, update_power_at_response_start, (transaction,))` —
  both the window and the argument taken from the OLD transaction.

Returns the kernel state and the stored new transaction. -/
def finish_transaction_tail (st : KernelSt RfidTask)
    (old_t new_t : Transaction) : KernelSt RfidTask × Transaction :=
  let s1 := st.schedule (some old_t.duration) (RfidTask.finishT new_t)
  let stored := { new_t with timeout_event_id := s1.2 }
  match old_t.reply_start_time with
  | some rst =>
    let dt := rst - s1.1.sim_time
    let s2 := s1.1.schedule (some dt) (RfidTask.updatePowerT old_t)
    (s2.1, stored)
  | none => (s1.1, stored)

/-- C3: evaluation at a failing input.  At `now = 10`, with the finished
transaction having `duration = 2` and `reply_start_time = 6`, and the
newly built transaction having `duration = 3` and
`reply_start_time = 12`: the new transaction's timeout is scheduled at
`12 = now + OLD duration`, not at `13 = now + new duration` as the claim
states; and the mid-window power refresh is scheduled at `6` — the OLD
transaction's reply window, which lies in the past — carrying the OLD
transaction, not the new one. -/
theorem finish_transaction_uses_old_duration :
    ((finish_transaction_tail
        ⟨⟨[], 0⟩, 10, none, none, none, false, none, "", 0, none⟩
        ⟨2, some 6, none, none⟩ ⟨3, some 12, none, none⟩).1.queue.event_list.map
          (fun e => (e.time, e.task)) =
      [(6, some (RfidTask.updatePowerT ⟨2, some 6, none, none⟩)),
       (12, some (RfidTask.finishT ⟨3, some 12, none, none⟩))]) ∧
    ((10 : Time) + (⟨3, some 12, none, none⟩ : Transaction).duration = 13) ∧
    ((12 : Time) ≠ 13) ∧ ((6 : Time) < 10) := by
  refine ⟨?_, by norm_num, by norm_num, by norm_num⟩
  norm_num [finish_transaction_tail, KernelSt.schedule, EventQueue.push,
    List.orderedInsert, entLe]

/-! Channel model: pysim/models/rfid/channel.py.  Quantities are real
numbers; `scipy.special.erf` is external and passed as a function
parameter. -/

/-- Source `snr_full` (channel.py lines 201-211): the effective SNR; returns
the saturation value 0.5 when the input SNR is below the tolerance. -/
noncomputable def snr_full (snr miller symbol preamble bandwidth tol : ℝ) :
    ℝ :=
  if snr < tol then 0.5
  else
    let sync_angle := (snr * preamble * bandwidth) ^ (-(0.5) : ℝ)
    miller * snr * symbol * bandwidth * Real.cos sync_angle ^ 2

/-- Source `q_func` (channel.py lines 214-215). -/
noncomputable def q_func (erf : ℝ → ℝ) (x : ℝ) : ℝ :=
  0.5 - 0.5 * erf (x / (2 : ℝ) ^ ((0.5) : ℝ))

/-- Source `ber` (channel.py lines 218-226): bit error probability; returns the
sentinel 0.5 when the SNR is below the tolerance. -/
noncomputable def ber (erf : ℝ → ℝ) (snr : ℝ) (distr : String) (tol : ℝ) :
    ℝ :=
  if snr < tol then 0.5
  else if distr = "rayleigh" then
    let t := (1 + 2 / snr) ^ ((0.5) : ℝ)
    0.5 - 1 / t + 2 / Real.pi * Real.arctan t / t
  else
    let t := q_func erf (snr ^ ((0.5) : ℝ))
    2 * t * (1 - t)

/-- C8: for every SNR below the tolerance, `snr_full` returns the
saturation value 0.5 and `ber` returns the sentinel 0.5 — both are total
functions returning a defined value on this edge case rather than
propagating an error. -/
theorem snr_ber_saturate_below_tol (erf : ℝ → ℝ)
    (snr miller symbol preamble bandwidth tol : ℝ) (distr : String)
    (h : snr < tol) :
    snr_full snr miller symbol preamble bandwidth tol = 0.5 ∧
      ber erf snr distr tol = 0.5 := by
  constructor
  · unfold snr_full; rw [if_pos h]
  · unfold ber; rw [if_pos h]

/-- Witness for C8 at `snr = 0` with the source's default parameters
(`miller=1`, `symbol=1.25e-6`, `preamble=9.3e-6`, `bandwidth=1.2e6`,
`tol=1e-8`, Rayleigh distribution). -/
theorem snr_ber_saturate_below_tol_witness :
    ((0 : ℝ) < 1e-8) ∧
    (snr_full 0 1 1.25e-6 9.3e-6 1.2e6 1e-8 = 0.5) ∧
    (ber (fun x => x) 0 "rayleigh" 1e-8 = 0.5) := by
  have h : (0 : ℝ) < 1e-8 := by norm_num
  have hc := snr_ber_saturate_below_tol (fun x => x) 0 1 1.25e-6 9.3e-6
    1.2e6 1e-8 "rayleigh" h
  exact ⟨h, hc.1, hc.2⟩

/-! Two-ray pathloss (channel.py lines 109-191).  3-D vectors have
explicit real components; `np.linalg.norm` is the Euclidean norm,
`np.dot` the scalar product.  The wall is the YOZ plane, so the mirrored
receiver is the X-negation of the receiver position. -/

structure Vec3 where
  x : ℝ
  y : ℝ
  z : ℝ

/-- Componentwise vector difference. -/
noncomputable def vsub (a b : Vec3) : Vec3 := ⟨a.x - b.x, a.y - b.y, a.z - b.z⟩

/-- Vector negation. -/
noncomputable def vneg (a : Vec3) : Vec3 := ⟨-a.x, -a.y, -a.z⟩

/-- Source `np.dot`. -/
noncomputable def dot3 (a b : Vec3) : ℝ := a.x * b.x + a.y * b.y + a.z * b.z

/-- Source `np.linalg.norm`. -/
noncomputable def norm3 (a : Vec3) : ℝ :=
  Real.sqrt (a.x ^ 2 + a.y ^ 2 + a.z ^ 2)

/-- Division of a vector by a scalar. -/
noncomputable def vdivs (a : Vec3) (c : ℝ) : Vec3 := ⟨a.x / c, a.y / c, a.z / c⟩

/-- Source `np.array([-v[0], v[1], v[2]])`: reflection through the YOZ wall
plane. -/
noncomputable def mirrorX (v : Vec3) : Vec3 := ⟨-v.x, v.y, v.z⟩

/-- Source `wall_normal = np.array([1, 0, 0])` (channel.py line 153). -/
noncomputable def wall_normal : Vec3 := ⟨1, 0, 0⟩

/-- Source `d0 = np.linalg.norm(rx_pos - tx_pos)` (lines 156, 158). -/
noncomputable def d0_len (tx_pos rx_pos : Vec3) : ℝ := norm3 (vsub rx_pos tx_pos)

/-- Source `d1 = np.linalg.norm(rx_pos_refl - tx_pos)` (lines 154, 157, 159). -/
noncomputable def d1_len (tx_pos rx_pos : Vec3) : ℝ :=
  norm3 (vsub (mirrorX rx_pos) tx_pos)

/-- Source `d0_vector_tx_n = d0_vector / d0` (line 161). -/
noncomputable def d0_tx_n (tx_pos rx_pos : Vec3) : Vec3 :=
  vdivs (vsub rx_pos tx_pos) (d0_len tx_pos rx_pos)

/-- Source `d1_vector_tx_n = d1_vector / d1` (line 163). -/
noncomputable def d1_tx_n (tx_pos rx_pos : Vec3) : Vec3 :=
  vdivs (vsub (mirrorX rx_pos) tx_pos) (d1_len tx_pos rx_pos)

/-- Source `tx_azimuth_0 = np.dot(d0_vector_tx_n, tx_dir_theta)` (line 168). -/
noncomputable def tx_azimuth_0 (tx_pos tx_dir rx_pos : Vec3) : ℝ :=
  dot3 (d0_tx_n tx_pos rx_pos) tx_dir

/-- Source `rx_azimuth_0 = np.dot(d0_vector_rx_n, rx_dir_theta)` where
`d0_vector_rx_n = -d0_vector_tx_n` (lines 162, 169). -/
noncomputable def rx_azimuth_0 (tx_pos rx_pos rx_dir : Vec3) : ℝ :=
  dot3 (vneg (d0_tx_n tx_pos rx_pos)) rx_dir

/-- Source `tx_azimuth_1 = np.dot(d1_vector_tx_n, tx_dir_theta)` (line 170). -/
noncomputable def tx_azimuth_1 (tx_pos tx_dir rx_pos : Vec3) : ℝ :=
  dot3 (d1_tx_n tx_pos rx_pos) tx_dir

/-- Source `rx_azimuth_1 = -np.dot(d1_vector_rx_n, rx_dir_theta)` where
`d1_vector_rx_n` negates only the X component of `d1_vector_tx_n`
(lines 164, 171). -/
noncomputable def rx_azimuth_1 (tx_pos rx_pos rx_dir : Vec3) : ℝ :=
  -(dot3 (mirrorX (d1_tx_n tx_pos rx_pos)) rx_dir)

/-- Source `grazing_angle = -np.dot(d1_vector_rx_n, wall_normal)` (line 174). -/
noncomputable def grazing_angle (tx_pos rx_pos : Vec3) : ℝ :=
  -(dot3 (mirrorX (d1_tx_n tx_pos rx_pos)) wall_normal)

/-- Source `velocity_pr_0 = np.dot(d0_vector_tx_n, relative_velocity)`
(line 177). -/
noncomputable def velocity_pr_0 (tx_pos rx_pos rel : Vec3) : ℝ :=
  dot3 (d0_tx_n tx_pos rx_pos) rel

/-- Source `velocity_pr_1 = np.dot(d1_vector_tx_n, relative_velocity)`
(line 178). -/
noncomputable def velocity_pr_1 (tx_pos rx_pos rel : Vec3) : ℝ :=
  dot3 (d1_tx_n tx_pos rx_pos) rel

/-- Source `two_ray_pathloss` (channel.py 109-191): two complex ray
contributions — radiation-pattern gains over ray length with
Doppler-shifted phase, the reflected ray weighted by the complex
reflection coefficient at the grazing angle — summed and squared, scaled
by `(0.5/k)²`. -/
noncomputable def two_ray_pathloss (time : ℝ)
    (ground_reflection : ℝ → ℝ → ℂ) (wavelen : ℝ)
    (tx_pos tx_dir_theta tx_velocity : Vec3) (tx_rp : ℝ → ℝ)
    (rx_pos rx_dir_theta rx_velocity : Vec3) (rx_rp : ℝ → ℝ) : ℝ :=
  let d0 := d0_len tx_pos rx_pos
  let d1 := d1_len tx_pos rx_pos
  let relative_velocity := vsub rx_velocity tx_velocity
  let vp0 := velocity_pr_0 tx_pos rx_pos relative_velocity
  let vp1 := velocity_pr_1 tx_pos rx_pos relative_velocity
  let g0 := tx_rp (tx_azimuth_0 tx_pos tx_dir_theta rx_pos) *
    rx_rp (rx_azimuth_0 tx_pos rx_pos rx_dir_theta)
  let g1 := tx_rp (tx_azimuth_1 tx_pos tx_dir_theta rx_pos) *
    rx_rp (rx_azimuth_1 tx_pos rx_pos rx_dir_theta)
  let r0 : ℂ := 1
  let r1 : ℂ := ground_reflection (grazing_angle tx_pos rx_pos) wavelen
  let k := 2 * Real.pi / wavelen
  (0.5 / k) ^ 2 *
    Complex.abs (r0 * (g0 : ℂ) / (d0 : ℂ) *
        Complex.exp ((-Complex.I) * (k : ℂ) * ((d0 - time * vp0 : ℝ) : ℂ)) +
      r1 * (g1 : ℂ) / (d1 : ℂ) *
        Complex.exp ((-Complex.I) * (k : ℂ) * ((d1 - time * vp1 : ℝ) : ℂ)))
      ^ 2

/-- Proof-side abbreviation: negation of the Y and Z components. -/
noncomputable def flipYZ (v : Vec3) : Vec3 := ⟨v.x, -v.y, -v.z⟩

theorem vneg_vneg (v : Vec3) : vneg (vneg v) = v := by
  simp [vneg]

theorem mirrorX_flipYZ (v : Vec3) : mirrorX (flipYZ v) = vneg v := by
  simp [mirrorX, flipYZ, vneg]

theorem dot3_zero_right (v : Vec3) : dot3 v ⟨0, 0, 0⟩ = 0 := by
  simp [dot3]

theorem dot3_vneg_left (v w : Vec3) : dot3 (vneg v) w = -(dot3 v w) := by
  simp only [dot3, vneg]
  ring

theorem dot3_flipYZ_eq (v w : Vec3) :
    dot3 (flipYZ v) w = -(dot3 (mirrorX v) w) := by
  simp only [dot3, flipYZ, mirrorX]
  ring

theorem dot3_wall (v : Vec3) :
    dot3 v wall_normal = -(dot3 (mirrorX v) wall_normal) := by
  simp only [dot3, mirrorX, wall_normal]
  ring

theorem d0_len_swap (a b : Vec3) : d0_len b a = d0_len a b := by
  simp only [d0_len, norm3, vsub]
  congr 1
  ring

theorem d1_len_swap (a b : Vec3) : d1_len b a = d1_len a b := by
  simp only [d1_len, norm3, vsub, mirrorX]
  congr 1
  ring

theorem d0_tx_n_swap (a b : Vec3) : d0_tx_n b a = vneg (d0_tx_n a b) := by
  simp only [d0_tx_n, d0_len_swap, vdivs, vsub, vneg, Vec3.mk.injEq]
  refine ⟨?_, ?_, ?_⟩ <;> ring

theorem d1_tx_n_swap (a b : Vec3) : d1_tx_n b a = flipYZ (d1_tx_n a b) := by
  simp only [d1_tx_n, d1_len_swap, vdivs, vsub, mirrorX, flipYZ,
    Vec3.mk.injEq]
  refine ⟨?_, ?_, ?_⟩ <;> ring

theorem az0_swap_tx (a b rd : Vec3) :
    tx_azimuth_0 b rd a = rx_azimuth_0 a b rd := by
  rw [tx_azimuth_0, rx_azimuth_0, d0_tx_n_swap]

theorem az0_swap_rx (a b td : Vec3) :
    rx_azimuth_0 b a td = tx_azimuth_0 a td b := by
  rw [rx_azimuth_0, tx_azimuth_0, d0_tx_n_swap, vneg_vneg]

theorem az1_swap_tx (a b rd : Vec3) :
    tx_azimuth_1 b rd a = rx_azimuth_1 a b rd := by
  rw [tx_azimuth_1, rx_azimuth_1, d1_tx_n_swap, dot3_flipYZ_eq]

theorem az1_swap_rx (a b td : Vec3) :
    rx_azimuth_1 b a td = tx_azimuth_1 a td b := by
  rw [rx_azimuth_1, tx_azimuth_1, d1_tx_n_swap, mirrorX_flipYZ,
    dot3_vneg_left, neg_neg]

theorem grazing_swap (a b : Vec3) : grazing_angle b a = grazing_angle a b := by
  rw [grazing_angle, grazing_angle, d1_tx_n_swap, mirrorX_flipYZ,
    dot3_vneg_left, neg_neg, dot3_wall]

theorem velocity_pr_0_zero (a b : Vec3) :
    velocity_pr_0 a b ⟨0, 0, 0⟩ = 0 := by
  rw [velocity_pr_0, dot3_zero_right]

theorem velocity_pr_1_zero (a b : Vec3) :
    velocity_pr_1 a b ⟨0, 0, 0⟩ = 0 := by
  rw [velocity_pr_1, dot3_zero_right]

/-- C9: with zero relative velocity, the two-ray pathloss computed
tag→reader — transmitter and receiver positions, boresight directions,
velocities and radiation patterns swapped — equals the pathloss computed
reader→tag, provided the same reflection-coefficient function is used:
both directions see the same ray lengths, gains and grazing angle, so
any difference between the two directions is confined to the
polarization-dependent reflection coefficient `ground_reflection`. -/
theorem pathloss_symmetric (time wavelen : ℝ) (gr : ℝ → ℝ → ℂ)
    (tx_pos tx_dir tx_vel : Vec3) (tx_rp : ℝ → ℝ)
    (rx_pos rx_dir rx_vel : Vec3) (rx_rp : ℝ → ℝ)
    (hv : vsub rx_vel tx_vel = ⟨0, 0, 0⟩) :
    two_ray_pathloss time gr wavelen rx_pos rx_dir rx_vel rx_rp
        tx_pos tx_dir tx_vel tx_rp =
      two_ray_pathloss time gr wavelen tx_pos tx_dir tx_vel tx_rp
        rx_pos rx_dir rx_vel rx_rp := by
  have hv' : vsub tx_vel rx_vel = ⟨0, 0, 0⟩ := by
    simp only [vsub, Vec3.mk.injEq] at hv ⊢
    refine ⟨?_, ?_, ?_⟩ <;> linarith [hv.1, hv.2.1, hv.2.2]
  simp only [two_ray_pathloss]
  rw [hv, hv']
  simp only [velocity_pr_0_zero, velocity_pr_1_zero, mul_zero, sub_zero]
  rw [d0_len_swap tx_pos rx_pos, d1_len_swap tx_pos rx_pos,
    az0_swap_tx tx_pos rx_pos rx_dir, az0_swap_rx tx_pos rx_pos tx_dir,
    az1_swap_tx tx_pos rx_pos rx_dir, az1_swap_rx tx_pos rx_pos tx_dir,
    grazing_swap tx_pos rx_pos,
    mul_comm (rx_rp (rx_azimuth_0 tx_pos rx_pos rx_dir))
      (tx_rp (tx_azimuth_0 tx_pos tx_dir rx_pos)),
    mul_comm (rx_rp (rx_azimuth_1 tx_pos rx_pos rx_dir))
      (tx_rp (tx_azimuth_1 tx_pos tx_dir rx_pos))]

/-- Witness for C9 at concrete inputs: both antennas at rest (equal —
here zero — velocities), distinct positions, unit patterns and a
constant reflection coefficient. -/
theorem pathloss_symmetric_witness :
    (vsub ⟨0, 0, 0⟩ ⟨0, 0, 0⟩ = (⟨0, 0, 0⟩ : Vec3)) ∧
    (two_ray_pathloss 0 (fun _ _ => -1) 1 ⟨3, 2, 1⟩ ⟨1, 0, 0⟩ ⟨0, 0, 0⟩
        (fun _ => 1) ⟨1, 1, 1⟩ ⟨0, 1, 0⟩ ⟨0, 0, 0⟩ (fun _ => 1) =
      two_ray_pathloss 0 (fun _ _ => -1) 1 ⟨1, 1, 1⟩ ⟨0, 1, 0⟩ ⟨0, 0, 0⟩
        (fun _ => 1) ⟨3, 2, 1⟩ ⟨1, 0, 0⟩ ⟨0, 0, 0⟩ (fun _ => 1)) := by
  have hv : vsub ⟨0, 0, 0⟩ ⟨0, 0, 0⟩ = (⟨0, 0, 0⟩ : Vec3) := by
    simp [vsub]
  exact ⟨hv, pathloss_symmetric 0 1 (fun _ _ => -1) ⟨1, 1, 1⟩ ⟨0, 1, 0⟩
    ⟨0, 0, 0⟩ (fun _ => 1) ⟨3, 2, 1⟩ ⟨1, 0, 0⟩ ⟨0, 0, 0⟩ (fun _ => 1) hv⟩

end PySim
